import Mathlib

/-!
Verification of the Composite-pattern file-system example
(`src/structural/composite.ts`) and the factory examples
(`src/creational/factory.ts`, abstract-factory example) of the
design-patterns repository.

The TypeScript classes `TextFile` / `Folder` (implementing
`FileSystemComponent`) are embedded as an inductive tree type.
`showDetails` writes lines to the console; we model an invocation as the
list of lines it prints, in order:

* `TextFile.showDetails()` logs one line: a fixed four-space prefix
  followed by the name, at every depth.
* `Folder.showDetails()` logs the bare name, with no indentation, then
  calls `showDetails` on each child in order via `forEach`.
-/

namespace Composite

/-- The `FileSystemComponent` hierarchy of `composite.ts`:
`TextFile` (leaf, a name) and `Folder` (a name and an ordered list of
child components, as built by `add` pushes). -/
inductive FileSystemComponent : Type where
  | textFile (name : String)
  | folder (name : String) (children : List FileSystemComponent)

namespace FileSystemComponent

/-- `getName()` of either class: returns the stored name. -/
def getName : FileSystemComponent → String
  | .textFile name => name
  | .folder name _ => name

/-- The single line `console.log` prints for a node when its own
`showDetails` body reaches its first statement: `"    " ++ name` for a
`TextFile`, the bare `name` for a `Folder`. -/
def ownLine : FileSystemComponent → String
  | .textFile name => "    " ++ name
  | .folder name _ => name

mutual

/-- The `showDetails` method of `composite.ts`, as the list of console
lines the call prints.  `TextFile.showDetails` prints one fixed-indent
line; `Folder.showDetails` prints its bare name and then recurses into
the children in order (`forEach`). -/
def showDetails : FileSystemComponent → List String
  | .textFile name => ["    " ++ name]
  | .folder name children => name :: showDetailsAll children

/-- Lines printed by `children.forEach((child) => child.showDetails())`. -/
def showDetailsAll : List FileSystemComponent → List String
  | [] => []
  | c :: cs => showDetails c ++ showDetailsAll cs

end

/-- `Folder.add` (`this.children.push(child)`), on the folder
constructor; a `TextFile` has no `add`, so it is returned unchanged. -/
def add : FileSystemComponent → FileSystemComponent → FileSystemComponent
  | .folder name children, child => .folder name (children ++ [child])
  | t, _ => t

/-- The children sequence of a node (`Folder.children`; a `TextFile`
has none). -/
def children : FileSystemComponent → List FileSystemComponent
  | .textFile _ => []
  | .folder _ cs => cs

end FileSystemComponent

/-- The kind of a node: a `TextFile` leaf or a `Folder` container. -/
inductive NodeKind : Type where
  | file
  | folder
deriving Repr, DecidableEq

namespace FileSystemComponent

mutual

/-- Number of nodes of a tree (each node prints exactly one line). -/
def countNodes : FileSystemComponent → Nat
  | .textFile _ => 1
  | .folder _ cs => 1 + countNodesAll cs

/-- Total node count of a list of trees. -/
def countNodesAll : List FileSystemComponent → Nat
  | [] => 0
  | c :: cs => countNodes c + countNodesAll cs

end

mutual

/-- The nodes of a tree in pre-order (the order `showDetails` visits
them), each with its kind, its name, and its depth when the root is
taken at depth `d`. -/
def preorderNodes : FileSystemComponent → Nat → List (NodeKind × String × Nat)
  | .textFile name, d => [(.file, name, d)]
  | .folder name cs, d => (.folder, name, d) :: preorderNodesAll cs (d + 1)

/-- Pre-order nodes of a list of sibling trees, all rooted at depth `d`. -/
def preorderNodesAll :
    List FileSystemComponent → Nat → List (NodeKind × String × Nat)
  | [], _ => []
  | c :: cs, d => preorderNodes c d ++ preorderNodesAll cs d

end

/-- The node reached from `t` by a path of child indices (`[]` is the
root itself; `i :: p` descends into the `i`-th child). -/
def nodeAt : FileSystemComponent → List Nat → Option FileSystemComponent
  | t, [] => some t
  | .textFile _, _ :: _ => none
  | .folder _ cs, i :: p => (cs[i]?).bind fun c => nodeAt c p

/-- The index of the line on which the node at the given path is printed
inside `showDetails t` (0-based), when the path is valid. -/
def preIdx : FileSystemComponent → List Nat → Option Nat
  | _, [] => some 0
  | .textFile _, _ :: _ => none
  | .folder _ cs, i :: p =>
    match cs[i]? with
    | none => none
    | some c => (preIdx c p).map fun k => 1 + countNodesAll (cs.take i) + k

end FileSystemComponent

open FileSystemComponent

/-- The usage block of `composite.ts` lines 121–128: a folder
`main_folder` to which `document.txt`, `report.xlsx` and the empty
folder `images` are added, in that order. -/
def rootFolder : FileSystemComponent :=
  (((FileSystemComponent.folder "main_folder" []).add
      (.textFile "document.txt")).add
      (.textFile "report.xlsx")).add
      (.folder "images" [])

/-- A folder built the way client code does: `new Folder(name)` followed
by one `add` call per element of `adds`, in list order. -/
def buildFolder (name : String) (adds : List FileSystemComponent) :
    FileSystemComponent :=
  adds.foldl FileSystemComponent.add (.folder name [])

/-- The line the code actually prints for a pre-order entry: the two
`console.log` statements of `composite.ts` put four spaces before a
`TextFile` name and nothing before a `Folder` name, independent of the
entry's depth. -/
def entryLine : NodeKind × String × Nat → String
  | (.file, name, _) => "    " ++ name
  | (.folder, name, _) => name

/-- Modelled from the spec: the indentation P3 claims for a node at
depth `d`, namely `4 * d` leading spaces (root at depth 0).  This is the
spec's formula, written down only to state the claim; the code's own
lines are given by `entryLine`. -/
def specIndent (d : Nat) : String :=
  String.mk (List.replicate (4 * d) ' ')

end Composite

namespace WithoutComposite

/-- The classes of the `Without Composite` section of `composite.ts`:
`TextFileWithoutComposite` (a name) and `FolderWithoutComposite` (a name
and a list of children, each a text file or a folder — the union type of
the source). -/
inductive FSComponent : Type where
  | textFile (name : String)
  | folder (name : String) (children : List FSComponent)

namespace FSComponent

mutual

/-- `showDetails` of the without-Composite classes:
`TextFileWithoutComposite.showDetails` logs four spaces and the name;
`FolderWithoutComposite.showDetails` logs the bare name then recurses
into the children via `forEach`. -/
def showDetails : FSComponent → List String
  | .textFile name => ["    " ++ name]
  | .folder name children => name :: showDetailsAll children

/-- Lines printed by the `forEach` loop over a child list. -/
def showDetailsAll : List FSComponent → List String
  | [] => []
  | c :: cs => showDetails c ++ showDetailsAll cs

end

mutual

/-- The node-for-node translation between the two class hierarchies:
the same names and the same `add` calls in the same order produce
corresponding trees. -/
def toComposite : FSComponent → Composite.FileSystemComponent
  | .textFile name => .textFile name
  | .folder name cs => .folder name (toCompositeAll cs)

/-- `toComposite` mapped over a child list. -/
def toCompositeAll : List FSComponent → List Composite.FileSystemComponent
  | [] => []
  | c :: cs => toComposite c :: toCompositeAll cs

end

/-- `FolderWithoutComposite.add`: pushes the child onto the children
array; a text file has no `add` and is returned unchanged. -/
def add : FSComponent → FSComponent → FSComponent
  | .folder name cs, c => .folder name (cs ++ [c])
  | t, _ => t

end FSComponent

end WithoutComposite

namespace FactoryExample

/-- The vehicles of `factory.ts` (classes `Car` and `Bike`). -/
inductive Vehicle : Type where
  | car
  | bike
deriving Repr, DecidableEq

/-- The animals of the second half of `factory.ts` (classes `Dog` and
`Cat`). -/
inductive Animal : Type where
  | dog
  | cat
deriving Repr, DecidableEq

/-- `Factory.create` of `factory.ts` (the abstract-factory example
repeats this class verbatim): returns a `Car` for the string `car`, a
`Bike` for `bike`, and otherwise throws `Error('Unknown vehicle type')`,
modelled as `Except.error` carrying the message. -/
def Factory.create (type : String) : Except String Vehicle :=
  if type = "car" then .ok .car
  else if type = "bike" then .ok .bike
  else .error "Unknown vehicle type"

/-- `AnimalFactory.create` of `factory.ts`: a `Dog` for `dog`, a `Cat`
for `cat`, otherwise throws `Error('Unknown animal type')`. -/
def AnimalFactory.create (type : String) : Except String Animal :=
  if type = "dog" then .ok .dog
  else if type = "cat" then .ok .cat
  else .error "Unknown animal type"

end FactoryExample

/-! ## Basic lemmas about the traversal -/

namespace Composite

open FileSystemComponent

mutual

theorem length_showDetails :
    ∀ t : FileSystemComponent, (showDetails t).length = countNodes t
  | .textFile n => by simp [showDetails, countNodes]
  | .folder n cs => by
      simp [showDetails, countNodes, length_showDetailsAll cs]
      omega

theorem length_showDetailsAll :
    ∀ cs : List FileSystemComponent,
      (showDetailsAll cs).length = countNodesAll cs
  | [] => by simp [showDetailsAll, countNodesAll]
  | c :: cs => by
      simp [showDetailsAll, countNodesAll, length_showDetails c,
        length_showDetailsAll cs]

end

theorem countNodes_pos (t : FileSystemComponent) : 0 < countNodes t := by
  cases t <;> simp [countNodes]

theorem countNodesAll_append (a b : List FileSystemComponent) :
    countNodesAll (a ++ b) = countNodesAll a + countNodesAll b := by
  induction a with
  | nil => simp [countNodesAll]
  | cons c cs ih => simp [countNodesAll, ih]; omega

theorem showDetailsAll_append (a b : List FileSystemComponent) :
    showDetailsAll (a ++ b) = showDetailsAll a ++ showDetailsAll b := by
  induction a with
  | nil => simp [showDetailsAll]
  | cons c cs ih => simp [showDetailsAll, ih]

theorem countNodesAll_take_succ (cs : List FileSystemComponent) (i : Nat)
    (c : FileSystemComponent) (h : cs[i]? = some c) :
    countNodesAll (cs.take (i + 1)) =
      countNodesAll (cs.take i) + countNodes c := by
  rw [List.take_succ, h]
  simp [countNodesAll_append, countNodesAll, countNodes]

theorem countNodesAll_take_mono (cs : List FileSystemComponent)
    (m n : Nat) (h : m ≤ n) :
    countNodesAll (cs.take m) ≤ countNodesAll (cs.take n) := by
  have h1 : (cs.take n).take m ++ (cs.take n).drop m = cs.take n :=
    List.take_append_drop m (cs.take n)
  have h2 : (cs.take n).take m = cs.take m := by
    rw [List.take_take, Nat.min_eq_left h]
  rw [← h1, h2, countNodesAll_append]
  omega

theorem countNodesAll_take_le (cs : List FileSystemComponent) (n : Nat) :
    countNodesAll (cs.take n) ≤ countNodesAll cs := by
  conv_rhs => rw [← List.take_append_drop n cs]
  rw [countNodesAll_append]
  omega

theorem preIdx_lt_countNodes :
    ∀ (p : List Nat) (t : FileSystemComponent) (k : Nat),
      preIdx t p = some k → k < countNodes t
  | [], t, k, h => by
      simp [preIdx] at h
      exact h ▸ countNodes_pos t
  | i :: p, t, k, h => by
      cases t with
      | textFile name => simp [preIdx] at h
      | folder name cs =>
          cases hc : cs[i]? with
          | none => simp [preIdx, hc] at h
          | some c =>
              simp [preIdx, hc] at h
              obtain ⟨k', hk', hkk⟩ := h
              have ih := preIdx_lt_countNodes p c k' hk'
              have hstep := countNodesAll_take_succ cs i c hc
              have hle := countNodesAll_take_le cs (i + 1)
              simp [countNodes]
              omega

theorem showDetailsAll_decomp (cs : List FileSystemComponent) (i : Nat)
    (c : FileSystemComponent) (hc : cs[i]? = some c) :
    showDetailsAll cs =
      showDetailsAll (cs.take i) ++ showDetails c ++
        showDetailsAll (cs.drop (i + 1)) := by
  have hlen : i < cs.length := (List.getElem?_eq_some.mp hc).1
  have hget : cs[i] = c := (List.getElem?_eq_some.mp hc).2
  have hdecomp : cs = cs.take i ++ c :: cs.drop (i + 1) := by
    conv_lhs => rw [← List.take_append_drop i cs]
    rw [List.drop_eq_getElem_cons hlen, hget]
  conv_lhs => rw [hdecomp]
  rw [showDetailsAll_append]
  simp [showDetailsAll, List.append_assoc]

theorem showDetails_getElem_preIdx :
    ∀ (p : List Nat) (t c : FileSystemComponent) (k : Nat),
      nodeAt t p = some c → preIdx t p = some k →
      (showDetails t)[k]? = some (ownLine c)
  | [], t, c, k, h1, h2 => by
      simp [nodeAt] at h1
      simp [preIdx] at h2
      subst h1
      cases h2
      cases t <;> simp [showDetails, ownLine]
  | i :: p, t, c, k, h1, h2 => by
      cases t with
      | textFile name => simp [nodeAt] at h1
      | folder name cs =>
          cases hc : cs[i]? with
          | none => simp [nodeAt, hc] at h1
          | some ch =>
              simp [nodeAt, hc] at h1
              simp [preIdx, hc] at h2
              obtain ⟨k', hk', hkk⟩ := h2
              have ih := showDetails_getElem_preIdx p ch c k' h1 hk'
              have hklt : k' < countNodes ch := preIdx_lt_countNodes p ch k' hk'
              have hlenA : (showDetailsAll (cs.take i)).length =
                  countNodesAll (cs.take i) := length_showDetailsAll _
              have hlenB : (showDetails ch).length = countNodes ch :=
                length_showDetails ch
              subst hkk
              rw [show (1 + countNodesAll (cs.take i) + k')
                    = (countNodesAll (cs.take i) + k') + 1 by omega]
              simp only [showDetails, List.getElem?_cons_succ]
              rw [showDetailsAll_decomp cs i ch hc]
              rw [List.append_assoc]
              rw [List.getElem?_append_right (by omega)]
              rw [hlenA]
              rw [show countNodesAll (cs.take i) + k'
                    - countNodesAll (cs.take i) = k' by omega]
              rw [List.getElem?_append_left (by omega)]
              exact ih

theorem preIdx_lt_of_descendant :
    ∀ (p : List Nat) (t : FileSystemComponent) (q : List Nat) (k1 k2 : Nat),
      q ≠ [] → preIdx t p = some k1 → preIdx t (p ++ q) = some k2 →
      k1 < k2
  | [], t, q, k1, k2, hq, h1, h2 => by
      simp [preIdx] at h1
      subst h1
      cases q with
      | nil => exact absurd rfl hq
      | cons j q' =>
          cases t with
          | textFile name => simp [preIdx] at h2
          | folder name cs =>
              cases hc : cs[j]? with
              | none => simp [preIdx, hc] at h2
              | some c =>
                  simp [preIdx, hc] at h2
                  obtain ⟨k', hk', hkk⟩ := h2
                  omega
  | i :: p, t, q, k1, k2, hq, h1, h2 => by
      cases t with
      | textFile name => simp [preIdx] at h1
      | folder name cs =>
          cases hc : cs[i]? with
          | none => simp [preIdx, hc] at h1
          | some c =>
              simp [preIdx, hc] at h1
              obtain ⟨k1', hk1', hkk1⟩ := h1
              rw [List.cons_append] at h2
              simp [preIdx, hc] at h2
              obtain ⟨k2', hk2', hkk2⟩ := h2
              have ih := preIdx_lt_of_descendant p c q k1' k2' hq hk1' hk2'
              omega

theorem preIdx_lt_of_sibling :
    ∀ (p : List Nat) (t : FileSystemComponent) (i j : Nat)
      (r1 r2 : List Nat) (k1 k2 : Nat),
      i < j → preIdx t (p ++ i :: r1) = some k1 →
      preIdx t (p ++ j :: r2) = some k2 → k1 < k2
  | [], t, i, j, r1, r2, k1, k2, hij, h1, h2 => by
      cases t with
      | textFile name => simp [preIdx] at h1
      | folder name cs =>
          cases hci : cs[i]? with
          | none => simp [preIdx, hci] at h1
          | some ci =>
              cases hcj : cs[j]? with
              | none => simp [preIdx, hcj] at h2
              | some cj =>
                  simp [preIdx, hci] at h1
                  simp [preIdx, hcj] at h2
                  obtain ⟨k1', hk1', hkk1⟩ := h1
                  obtain ⟨k2', hk2', hkk2⟩ := h2
                  have hlt : k1' < countNodes ci :=
                    preIdx_lt_countNodes r1 ci k1' hk1'
                  have hstep := countNodesAll_take_succ cs i ci hci
                  have hmono := countNodesAll_take_mono cs (i + 1) j hij
                  omega
  | a :: p, t, i, j, r1, r2, k1, k2, hij, h1, h2 => by
      cases t with
      | textFile name => simp [preIdx] at h1
      | folder name cs =>
          rw [List.cons_append] at h1 h2
          cases hc : cs[a]? with
          | none => simp [preIdx, hc] at h1
          | some c =>
              simp [preIdx, hc] at h1
              simp [preIdx, hc] at h2
              obtain ⟨k1', hk1', hkk1⟩ := h1
              obtain ⟨k2', hk2', hkk2⟩ := h2
              have ih :=
                preIdx_lt_of_sibling p c i j r1 r2 k1' k2' hij hk1' hk2'
              omega

theorem showDetailsAll_eq_flatten (cs : List FileSystemComponent) :
    showDetailsAll cs = (cs.map showDetails).flatten := by
  induction cs with
  | nil => simp [showDetailsAll]
  | cons c cs ih => simp [showDetailsAll, ih]

theorem foldl_add_folder (l : List FileSystemComponent) :
    ∀ (name : String) (cs0 : List FileSystemComponent),
      l.foldl add (.folder name cs0) = .folder name (cs0 ++ l) := by
  induction l with
  | nil => intro name cs0; simp
  | cons c l ih =>
      intro name cs0
      simp only [List.foldl_cons, add, ih]
      simp

theorem buildFolder_eq (name : String) (adds : List FileSystemComponent) :
    buildFolder name adds = .folder name adds := by
  simpa [buildFolder] using foldl_add_folder adds name []

mutual

theorem showDetails_eq_map_entryLine :
    ∀ (t : FileSystemComponent) (d : Nat),
      showDetails t = (preorderNodes t d).map entryLine
  | .textFile n, d => by simp [showDetails, preorderNodes, entryLine]
  | .folder n cs, d => by
      simp only [showDetails, preorderNodes, List.map_cons, entryLine]
      rw [showDetailsAll_eq_map_entryLine cs (d + 1)]

theorem showDetailsAll_eq_map_entryLine :
    ∀ (cs : List FileSystemComponent) (d : Nat),
      showDetailsAll cs = (preorderNodesAll cs d).map entryLine
  | [], d => by simp [showDetailsAll, preorderNodesAll]
  | c :: cs, d => by
      simp only [showDetailsAll, preorderNodesAll, List.map_append]
      rw [showDetails_eq_map_entryLine c d,
        showDetailsAll_eq_map_entryLine cs d]

end

end Composite

namespace WithoutComposite

namespace FSComponent

mutual

theorem showDetails_toComposite :
    ∀ t : FSComponent,
      Composite.FileSystemComponent.showDetails t.toComposite =
        t.showDetails
  | .textFile n => by
      simp [toComposite, showDetails,
        Composite.FileSystemComponent.showDetails]
  | .folder n cs => by
      simp only [toComposite, showDetails,
        Composite.FileSystemComponent.showDetails]
      rw [showDetailsAll_toCompositeAll cs]

theorem showDetailsAll_toCompositeAll :
    ∀ cs : List FSComponent,
      Composite.FileSystemComponent.showDetailsAll (toCompositeAll cs) =
        showDetailsAll cs
  | [] => by
      simp [toCompositeAll, showDetailsAll,
        Composite.FileSystemComponent.showDetailsAll]
  | c :: cs => by
      simp only [toCompositeAll, showDetailsAll,
        Composite.FileSystemComponent.showDetailsAll]
      rw [showDetails_toComposite c, showDetailsAll_toCompositeAll cs]

end

theorem toCompositeAll_append (a b : List FSComponent) :
    toCompositeAll (a ++ b) = toCompositeAll a ++ toCompositeAll b := by
  induction a with
  | nil => simp [toCompositeAll]
  | cons c cs ih => simp [toCompositeAll, ih]

end FSComponent

end WithoutComposite

/-! ## The claims -/

namespace Composite

open FileSystemComponent

/-- Claim C1, as stated, is false on the code: the usage tree of
`composite.ts` does not print its third child `images` with four leading
spaces — `Folder.showDetails` prints the bare name, so the fourth line
is `images`, unindented. -/
theorem c1_counterexample :
    FileSystemComponent.showDetails rootFolder ≠
      ["main_folder", "    document.txt", "    report.xlsx", "    images"] := by
  decide

/-- Claim C1 (amended): calling `showDetails` on the usage tree of
`composite.ts` (folder `main_folder` with children `document.txt`,
`report.xlsx` and the empty folder `images`, added in that order)
produces exactly four lines in that order; the two `TextFile` children
are indented four spaces, while the `Folder` child `images` is printed
unindented. -/
theorem c1_output :
    FileSystemComponent.showDetails rootFolder =
      ["main_folder", "    document.txt", "    report.xlsx", "images"] := rfl

/-- Claim C2, as stated, is false on the code: it is not the case that
every node at depth `d` is printed with `4 * d` leading spaces.  In the
tree `folder a [folder b []]`, the inner folder sits at depth 1 but its
line is the bare `b`, not four spaces followed by `b`. -/
theorem c2_counterexample :
    ¬ (∀ (t : FileSystemComponent) (i : Nat) (k : NodeKind) (n : String)
        (d : Nat),
        (preorderNodes t 0)[i]? = some (k, n, d) →
        (showDetails t)[i]? = some (specIndent d ++ n)) := by
  intro h
  have h2 := h (.folder "a" [.folder "b" []]) 1 .folder "b" 1 rfl
  exact absurd h2 (by decide)

/-- Claim C2 (amended): the indentation of each output line is a
function of the node's kind alone, not of its depth — for every tree and
every choice of root depth `d`, the output is the pre-order node list
rendered by `entryLine`, which puts exactly four spaces before a
`TextFile` name and none before a `Folder` name. -/
theorem c2_kind_indent (t : FileSystemComponent) (d : Nat) :
    showDetails t = (preorderNodes t d).map entryLine :=
  showDetails_eq_map_entryLine t d

/-- Claim C3: the output of `showDetails` is a pre-order depth-first
listing.  For every tree: (1) the line index of any node strictly
precedes the line index of each of its descendants; (2) for two siblings
in child order, every line of the earlier sibling's subtree precedes
every line of the later sibling's subtree; (3) the line at a node's
index is exactly that node's own printed line. -/
theorem c3_preorder_traversal (t : FileSystemComponent) :
    (∀ (p q : List Nat) (k1 k2 : Nat), q ≠ [] →
        preIdx t p = some k1 → preIdx t (p ++ q) = some k2 → k1 < k2) ∧
    (∀ (p : List Nat) (i j : Nat) (r1 r2 : List Nat) (k1 k2 : Nat),
        i < j → preIdx t (p ++ i :: r1) = some k1 →
        preIdx t (p ++ j :: r2) = some k2 → k1 < k2) ∧
    (∀ (p : List Nat) (c : FileSystemComponent) (k : Nat),
        nodeAt t p = some c → preIdx t p = some k →
        (showDetails t)[k]? = some (ownLine c)) :=
  ⟨fun p q k1 k2 hq h1 h2 => preIdx_lt_of_descendant p t q k1 k2 hq h1 h2,
   fun p i j r1 r2 k1 k2 hij h1 h2 =>
     preIdx_lt_of_sibling p t i j r1 r2 k1 k2 hij h1 h2,
   fun p c k h1 h2 => showDetails_getElem_preIdx p t c k h1 h2⟩

/-- Witness for C3 on the usage tree: the root (line 0) precedes its
first child (line 1), the first child (line 1) precedes its sibling
(line 2), and the node at path `[2]` is printed on line 3 as `images`. -/
theorem c3_witness :
    (0 : Nat) < 1 ∧ (1 : Nat) < 2 ∧
      (FileSystemComponent.showDetails rootFolder)[3]? = some "images" :=
  ⟨(c3_preorder_traversal rootFolder).1 [] [0] 0 1 (by decide) rfl rfl,
   (c3_preorder_traversal rootFolder).2.1 [] 0 1 [] [] 1 2 (by decide) rfl rfl,
   (c3_preorder_traversal rootFolder).2.2 [2] (.folder "images" []) 3 rfl rfl⟩

/-- Claim C4: `Folder.add` appends the child at the end of the children
sequence, and a folder built by a sequence of `add` calls prints its own
name followed by the children's subtree outputs concatenated in exactly
the order the `add` calls were made. -/
theorem c4_add_order (name : String) (adds : List FileSystemComponent)
    (c : FileSystemComponent) :
    (FileSystemComponent.add (buildFolder name adds) c
        = buildFolder name (adds ++ [c])) ∧
    ((FileSystemComponent.add (.folder name adds) c).children
        = adds ++ [c]) ∧
    (showDetails (buildFolder name adds)
        = name :: (adds.map showDetails).flatten) := by
  refine ⟨?_, ?_, ?_⟩
  · rw [buildFolder_eq, buildFolder_eq]
    simp [add]
  · simp [add, children]
  · rw [buildFolder_eq]
    simp [showDetails, showDetailsAll_eq_flatten]

/-- Claim C5: on every cycle-free tree (the inductive type contains
exactly the finite, cycle-free structures), the recursive `showDetails`
traversal is a total function; it terminates with exactly one output
line per node of the tree. -/
theorem c5_total_traversal (t : FileSystemComponent) :
    (showDetails t).length = countNodes t :=
  length_showDetails t

/-- Claim C6: a `TextFile` with any name produces exactly one output
line — four spaces followed by its name — and the result involves no
recursion into other components (the output is the same regardless of
where the leaf is nested, since `showDetails` takes no depth input). -/
theorem c6_leaf_one_line (name : String) :
    showDetails (.textFile name) = ["    " ++ name] ∧
    (showDetails (.textFile name)).length = 1 :=
  ⟨rfl, rfl⟩

/-- Claim C7: a `Folder` with an empty children sequence (as freshly
constructed) prints exactly one line, its own name, with no child
lines. -/
theorem c7_empty_folder (name : String) :
    showDetails (.folder name []) = [name] ∧
    (showDetails (.folder name [])).length = 1 :=
  ⟨rfl, rfl⟩

/-- Claim C9 (frame property of `add`): adding `c` to a folder returns
the same folder with `c` appended to the children — the name is
unchanged, the previously added children survive as an unchanged prefix,
the appended element is exactly `c`, the length grows by one, and the
operation is total (it always succeeds). -/
theorem c9_add_frame (name : String) (cs : List FileSystemComponent)
    (c : FileSystemComponent) :
    (add (.folder name cs) c = .folder name (cs ++ [c])) ∧
    ((add (.folder name cs) c).getName = name) ∧
    ((add (.folder name cs) c).children.take cs.length = cs) ∧
    ((add (.folder name cs) c).children.getLast? = some c) ∧
    ((add (.folder name cs) c).children.length = cs.length + 1) := by
  refine ⟨rfl, rfl, ?_, ?_, ?_⟩ <;> simp [add, children]

end Composite

namespace FactoryExample

/-- Claim C8: `Factory.create` returns a constructed vehicle exactly for
the strings `car` and `bike` and throws `Error('Unknown vehicle type')`
for every other input; `AnimalFactory.create` returns an animal exactly
for `dog` and `cat` and throws `Error('Unknown animal type')` otherwise.
These characterizations are exact: the error case holds if and only if
the input is none of the recognized strings. -/
theorem c8_factory_create (s : String) :
    (Factory.create s = .ok .car ↔ s = "car") ∧
    (Factory.create s = .ok .bike ↔ s = "bike") ∧
    (Factory.create s = .error "Unknown vehicle type" ↔
      s ≠ "car" ∧ s ≠ "bike") ∧
    (AnimalFactory.create s = .ok .dog ↔ s = "dog") ∧
    (AnimalFactory.create s = .ok .cat ↔ s = "cat") ∧
    (AnimalFactory.create s = .error "Unknown animal type" ↔
      s ≠ "dog" ∧ s ≠ "cat") := by
  refine ⟨?_, ?_, ?_, ?_, ?_, ?_⟩ <;>
    simp only [Factory.create, AnimalFactory.create] <;>
    split_ifs <;> simp_all

end FactoryExample

namespace WithoutComposite

/-- Claim C10: a tree built with the without-Composite classes and the
corresponding tree built with the Composite classes — same names, same
`add` calls in the same order — produce character-for-character the same
`showDetails` output; moreover the translation commutes with `add`, so
identical build sequences really do produce corresponding trees. -/
theorem c10_same_output (t : FSComponent) (c : FSComponent) :
    (FSComponent.showDetails t =
      Composite.FileSystemComponent.showDetails t.toComposite) ∧
    ((FSComponent.add t c).toComposite =
      Composite.FileSystemComponent.add t.toComposite c.toComposite) := by
  constructor
  · exact (FSComponent.showDetails_toComposite t).symm
  · cases t with
    | textFile n =>
        simp [FSComponent.add, FSComponent.toComposite,
          Composite.FileSystemComponent.add]
    | folder n cs =>
        simp [FSComponent.add, FSComponent.toComposite,
          Composite.FileSystemComponent.add,
          FSComponent.toCompositeAll_append, FSComponent.toCompositeAll]

end WithoutComposite
